import Mathlib

/-!
Verification of the minipilot incremental indexing and retrieval engine.

The development shallowly embeds the core operations of the repository:
change detection over path-to-digest maps (`merkle_tree.py`), the sync
orchestration order of the indexer (`indexer.py`), the token-window chunker
(`chunker.py`), the walker's file-inclusion predicate (`chunker.py`), and the
query engine's search, keyword boosting and context assembly (`query.py`).
Tokens are modelled by their decoded text, so decoding a token list is string
concatenation; numeric scores are modelled as rationals.
-/

namespace Minipilot

/-! ## Change detection (`FileChangeDetector.detect_changes`) -/

structure Changes where
  added : Finset String
  modified : Finset String
  deleted : Finset String
deriving DecidableEq

/-- Embedding of `FileChangeDetector.detect_changes`: `old_hashes` plays the
role of `self.file_hashes`, `new_hashes` of `new_file_hashes`; Python dicts
are association lists, Python sets are finite sets. -/
def detect_changes (old_hashes new_hashes : List (String × String)) : Changes :=
  let old_files := (old_hashes.map Prod.fst).toFinset
  let new_files := (new_hashes.map Prod.fst).toFinset
  let added := new_files \ old_files
  let deleted := old_files \ new_files
  let common_files := old_files ∩ new_files
  let modified := common_files.filter
    (fun file_path => List.lookup file_path old_hashes ≠ List.lookup file_path new_hashes)
  ⟨added, modified, deleted⟩

/-! ## Indexer sync traces (`CodebaseIndexer`)

The indexer's externally visible writes are modelled as an event trace, at the
granularity of the phases of `incremental_sync`: the Merkle-state commit
performed inside `CodebaseIndexer.detect_changes`, the deletion loop, the
processing loop, and the orphan cleanup. -/

inductive SyncEvent where
  | storeMerkle (treeMap : List (String × String)) : SyncEvent
  | deleteFiles (paths : Finset String) : SyncEvent
  | processFiles (paths : Finset String) : SyncEvent
  | cleanupOrphans : SyncEvent
deriving DecidableEq

/-- Embedding of `CodebaseIndexer.detect_changes`: it loads the prior Merkle
map, diffs it against the current map, and immediately stores the new Merkle
state (root plus current map) before returning the changes. -/
def indexer_detect_changes (prior current : List (String × String)) :
    Changes × List SyncEvent :=
  (detect_changes prior current, [SyncEvent.storeMerkle current])

/-- Embedding of the write-ordering of `CodebaseIndexer.incremental_sync`:
first `detect_changes` (which already commits the new Merkle state), then, if
any change was detected, the deletion loop, the processing loop over the
added and modified files that still exist on disk, and `cleanup_orphaned_data`. -/
def incremental_sync_trace (prior current : List (String × String))
    (fs_exists : String → Bool) : List SyncEvent :=
  let r := indexer_detect_changes prior current
  let changes := r.1
  let all_changed_files := changes.added ∪ changes.modified ∪ changes.deleted
  if all_changed_files = ∅ then r.2
  else
    r.2 ++ [SyncEvent.deleteFiles changes.deleted,
      SyncEvent.processFiles
        ((changes.added ∪ changes.modified).filter (fun p => fs_exists p = true)),
      SyncEvent.cleanupOrphans]

/-! ## Chunker (`FileChunker.chunk_text`)

A token is modelled by its decoded text, so `tiktoken` decoding of a token
list is string concatenation.  Window starts are Python ints, hence `Int`. -/

structure Chunk where
  id : String
  file_path : String
  content : String
  start_line : Nat
  end_line : Nat
  chunk_index : Nat
  token_count : Nat
deriving DecidableEq, Repr

/-- Python list slicing `l[a:b]`, including the clamping of negative bounds. -/
def pySlice {α : Type} (l : List α) (a b : Int) : List α :=
  let n : Int := l.length
  let lo : Int := if a < 0 then max (n + a) 0 else min a n
  let hi : Int := if b < 0 then max (n + b) 0 else min b n
  (l.drop lo.toNat).take (hi - lo).toNat

/-- `tiktoken` decoding of a token list, with tokens modelled by their text. -/
def decodeTokens (tokens : List String) : String := String.join tokens

/-- Python `s.count('\n')`: for a single-character pattern, the number of
occurrences of that character. -/
def countNL (s : String) : Nat := s.data.count '\n'

/-- The body of one iteration of the `while` loop of `FileChunker.chunk_text`:
the chunk record built at window start `start` with running index `chunk_id`. -/
def mkChunkData (chunk_size : Nat) (tokens : List String) (file_path : String)
    (start : Int) (chunk_id : Nat) : Chunk :=
  let e : Int := min (start + chunk_size) (tokens.length : Int)
  let chunk_tokens := pySlice tokens start e
  let chunk_text := decodeTokens chunk_tokens
  let lines_before := if 0 < start then countNL (decodeTokens (pySlice tokens 0 start)) else 0
  let lines_in_chunk := countNL chunk_text
  ⟨file_path ++ ":" ++ toString lines_before ++ "-" ++ toString (lines_before + lines_in_chunk),
   file_path, chunk_text, lines_before, lines_before + lines_in_chunk, chunk_id,
   chunk_tokens.length⟩

/-- The `while start < len(tokens)` loop of `FileChunker.chunk_text`, as a
fuel-indexed recursion: `none` means the fuel ran out before the loop exited,
so a loop that runs forever is `none` for every fuel. -/
def chunkLoop (chunk_size chunk_overlap : Nat) (tokens : List String)
    (file_path : String) : Nat → Int → Nat → Option (List Chunk)
  | 0, _, _ => none
  | fuel + 1, start, chunk_id =>
    if start < (tokens.length : Int) then
      if (tokens.length : Int) ≤ min (start + chunk_size) (tokens.length : Int) then
        some [mkChunkData chunk_size tokens file_path start chunk_id]
      else
        match chunkLoop chunk_size chunk_overlap tokens file_path fuel
            (min (start + chunk_size) (tokens.length : Int) - chunk_overlap)
            (chunk_id + 1) with
        | none => none
        | some cs => some (mkChunkData chunk_size tokens file_path start chunk_id :: cs)
    else some []

/-- `FileChunker.chunk_text`: the loop started at `start = 0`, `chunk_id = 0`,
with enough fuel for every terminating run. -/
def chunk_text (chunk_size chunk_overlap : Nat) (tokens : List String)
    (file_path : String) : Option (List Chunk) :=
  chunkLoop chunk_size chunk_overlap tokens file_path (tokens.length + 1) 0 0

/-- The single chunk produced from the token stream `["a", "b\n", "c"]` with
`chunk_size = 3` and `chunk_overlap = 1`; used as a concrete witness input. -/
def csWitness : List Chunk := [⟨"f:0-1", "f", "ab\nc", 0, 1, 0, 3⟩]

/-! ## Walker (`FileChunker.should_include_file`) -/

/-- Python `s.lower()`, character-wise. -/
def lowerStr (s : String) : String := String.mk (s.data.map Char.toLower)

/-- The `code_extensions` alllow-list of `FileChunker.__init__`. -/
def code_extensions : List String :=
  [".py", ".js", ".ts", ".jsx", ".tsx", ".java", ".cpp", ".c", ".h",
   ".cs", ".php", ".rb", ".go", ".rs", ".swift", ".kt", ".scala",
   ".clj", ".hs", ".ml", ".elm", ".dart", ".r", ".m", ".mm",
   ".sh", ".bash", ".zsh", ".fish", ".ps1", ".bat", ".cmd",
   ".html", ".htm", ".xml", ".css", ".scss", ".sass", ".less",
   ".astro", ".vue", ".svelte", ".mjs", ".cjs",
   ".sql", ".yaml", ".yml", ".json", ".toml", ".ini", ".cfg",
   ".md", ".rst", ".txt", ".tex", ".org"]

def skip_files : List String :=
  ["package-lock.json", "yarn.lock", "pnpm-lock.yaml", "composer.lock",
   "Cargo.lock", "poetry.lock", "Pipfile.lock", "go.sum"]

def allowed_hidden : List String :=
  [".gitignore", ".env.example", ".editorconfig", ".nvmrc"]

def ignore_dirs : List String :=
  ["node_modules", "__pycache__", ".git", "build", "dist",
   ".venv", "venv", ".env", "target", ".gradle", ".idea",
   ".vscode", ".vs", "bin", "obj", "logs", "tmp", "temp",
   "coverage", ".nyc_output", ".pytest_cache", "__tests__",
   "test-results", "dist-ssr", ".astro"]

/-- The data `should_include_file` reads off a candidate path: its extension
(`Path.suffix`), final component (`Path.name`), components (`Path.parts`), the
result of `stat` (`none` when the call raises), and whether the combined
`root_path`-and-gitignore test of the final guard holds. -/
structure FileMeta where
  suffix : String
  name : String
  parts : List String
  statSize : Option Nat
  gitignored : Bool
deriving DecidableEq

/-- Python `part.startswith('.')`: the first character is a dot. -/
def startsWithDot (s : String) : Bool :=
  match s.data with
  | [] => false
  | c :: _ => c = '.'

/-- Embedding of `FileChunker.should_include_file`. -/
def should_include_file (f : FileMeta) : Bool :=
  if !(code_extensions.contains (lowerStr f.suffix)) then false
  else if skip_files.contains f.name then false
  else if (f.parts.any fun part => startsWithDot part) &&
      !(allowed_hidden.contains f.name) then false
  else if f.parts.any (fun part => ignore_dirs.contains part) then false
  else
    match f.statSize with
    | none => false
    | some sz =>
      if sz > 1024 * 1024 then false
      else if f.gitignored then false
      else true

def withSize (f : FileMeta) (sz : Option Nat) : FileMeta :=
  ⟨f.suffix, f.name, f.parts, sz, f.gitignored⟩

/-- A concrete candidate file `src/main.py` used as a witness input. -/
def fileW : FileMeta := ⟨".py", "main.py", ["src", "main.py"], some 0, false⟩

/-! ## Query engine (`QueryEngine`) -/

/-- Python `hay.count(sub)` for a non-empty pattern `s0 :: srest`:
non-overlapping occurrences, scanning left to right. -/
def pyCountAux (s0 : Char) (srest : List Char) : List Char → Nat
  | [] => 0
  | c :: rest =>
    if List.isPrefixOf (s0 :: srest) (c :: rest) then
      1 + pyCountAux s0 srest (rest.drop srest.length)
    else pyCountAux s0 srest rest
termination_by l => l.length
decreasing_by
  all_goals simp only [List.length_drop, List.length_cons]
  all_goals omega

/-- Python `hay.count(sub)`: the empty pattern occurs `len(hay) + 1` times. -/
def pyCount (hay sub : String) : Nat :=
  match sub.data with
  | [] => hay.data.length + 1
  | s0 :: srest => pyCountAux s0 srest hay.data

/-- Embedding of `QueryEngine._apply_keyword_boosting`; Python floats are
modelled as rationals. -/
def apply_keyword_boosting (base_score : ℚ) (content : String)
    (keywords : List String) : ℚ :=
  if keywords = [] then base_score
  else
    let content_lower := lowerStr content
    let boost_factor := keywords.foldl
      (fun acc keyword =>
        let count := pyCount content_lower keyword
        if 0 < count then acc + min ((1 : ℚ) / 10 * count) (3 / 10) else acc) 0
    let boost_factor := min boost_factor ((1 : ℚ) / 2)
    let boosted_score := base_score + boost_factor * (1 - base_score)
    min boosted_score 1

/-- The total boost `b` exactly as the specification words it: per-keyword
contribution `min(0.1·c, 0.3)` summed over the keywords, clamped to `≤ 0.5`. -/
def keywordBoostTotal (content : String) (keywords : List String) : ℚ :=
  min ((keywords.map
    (fun k => min ((1 : ℚ) / 10 * pyCount (lowerStr content) k) (3 / 10))).sum)
    ((1 : ℚ) / 2)

/-- The per-chunk metadata the vector store returns with each hit. -/
structure HitMeta where
  file_path : String
  start_line : Nat
  end_line : Nat
deriving DecidableEq

/-- One hit of `vector_db.search`: parallel entries of the `chunks`,
`metadatas`, `distances` and `ids` arrays. -/
structure VHit where
  content : String
  meta : HitMeta
  distance : ℚ
  id : String
deriving DecidableEq

/-- Embedding of the `SearchResult` dataclass (without the redundant raw
metadata dictionary). -/
structure SearchResult where
  chunk_id : String
  content : String
  file_path : String
  start_line : Nat
  end_line : Nat
  similarity_score : ℚ
deriving DecidableEq

/-- Python's stable `results.sort(key=score, reverse=True)`. -/
def sortByScoreDesc (results : List SearchResult) : List SearchResult :=
  results.mergeSort (fun a b => decide (b.similarity_score ≤ a.similarity_score))

/-- Embedding of `QueryEngine.search`. The vector store is an oracle mapping
the requested `n_results` to the returned hits; the query keywords are those
of `_extract_keywords`; `max_results` is the resolved result limit `K`. -/
def search (vector_db : Nat → List VHit) (query_keywords : List String)
    (similarity_threshold : ℚ) (max_results : Nat) : List SearchResult :=
  let search_results := vector_db (max_results * 2)
  let results := search_results.filterMap (fun h =>
    let similarity_score := max 0 (1 - h.distance)
    let boosted_score := apply_keyword_boosting similarity_score h.content query_keywords
    if boosted_score < similarity_threshold then none
    else some ⟨h.id, h.content, h.meta.file_path, h.meta.start_line, h.meta.end_line,
      boosted_score⟩)
  (sortByScoreDesc results).take max_results

/-- The boosted similarity of one hit, as the claim words it. -/
def boostedSimilarity (query_keywords : List String) (h : VHit) : ℚ :=
  apply_keyword_boosting (max 0 (1 - h.distance)) h.content query_keywords

/-- The search pipeline exactly as the claim describes it, applied to an
explicitly given candidate list: score every candidate with the boosted
similarity over base `max(0, 1 - distance)`, drop candidates below the
threshold, sort descending, truncate to `max_results`. -/
def searchDescribed (candidates : List VHit) (query_keywords : List String)
    (similarity_threshold : ℚ) (max_results : Nat) : List SearchResult :=
  let scored := candidates.map (fun h =>
    (⟨h.id, h.content, h.meta.file_path, h.meta.start_line, h.meta.end_line,
      boostedSimilarity query_keywords h⟩ : SearchResult))
  let kept := scored.filter (fun r => decide (similarity_threshold ≤ r.similarity_score))
  (sortByScoreDesc kept).take max_results

/-- The per-chunk block `get_context_for_completion` appends for one result. -/
def formatBlock (result : SearchResult) : String :=
  "\nFile: " ++ result.file_path ++ " (lines " ++ toString result.start_line ++ "-" ++
    toString result.end_line ++ ")\n```\n" ++ result.content ++ "\n```\n"

/-- The accumulation loop of `get_context_for_completion`: append each block
unless doing so would push the running block-length total past the budget, in
which case stop. -/
def context_build (max_context_length : Nat) : List SearchResult → Nat → List String
  | [], _ => []
  | result :: rest, current_length =>
    if current_length + (formatBlock result).length > max_context_length then []
    else formatBlock result ::
      context_build max_context_length rest (current_length + (formatBlock result).length)

/-- Python `"\n".join(parts)`. -/
def joinNL : List String → String
  | [] => ""
  | [s] => s
  | s :: rest => s ++ "\n" ++ joinNL rest

def sumLens (parts : List String) : Nat := (parts.map String.length).sum

/-- The fields of the dictionary `get_context_for_completion` returns that
concern the assembled context. -/
structure ContextResult where
  context : String
  context_length : Nat
  chunks_used : Nat
  total_chunks_found : Nat
deriving DecidableEq

/-- Embedding of `QueryEngine.get_context_for_completion`, applied to the
already-retrieved search results. -/
def get_context_for_completion (results : List SearchResult)
    (max_context_length : Nat) : ContextResult :=
  let context_parts := context_build max_context_length results 0
  let full_context := joinNL context_parts
  ⟨full_context, full_context.length, context_parts.length, results.length⟩

/-- `get_context_for_completion` as called with no `max_context_length`
argument: Python fills in the declared default, which is `8000`. -/
def get_context_for_completion_default (results : List SearchResult) : ContextResult :=
  get_context_for_completion results 8000

/-- A result whose formatted block is exactly 50 characters long. -/
def cxResult : SearchResult := ⟨"", "aaaaaaaaaaaaaaaaaaaa", "a", 0, 0, 0⟩

/-- 8100 characters of content, making a formatted block of 8130 characters:
over the 8000-character default budget, under a 16000-character budget. -/
def bigContent : String := String.mk (List.replicate 8100 'a')

def c9Result : SearchResult := ⟨"", bigContent, "a", 0, 0, 0⟩

theorem pySlice_eval {α : Type} (l : List α) (a b : Int) (ha : 0 ≤ a) (hab : a ≤ b)
    (hb : b ≤ (l.length : Int)) :
    pySlice l a b = (l.drop a.toNat).take (b - a).toNat := by
  simp only [pySlice]
  have h1 : ¬ a < 0 := by omega
  have h2 : ¬ b < 0 := by omega
  rw [if_neg h1, if_neg h2]
  have h3 : min a (l.length : Int) = a := by omega
  have h4 : min b (l.length : Int) = b := by omega
  rw [h3, h4]

theorem mkChunkData_token_count (chunk_size : Nat) (tokens : List String)
    (fp : String) (s chunk_id : Nat) (hs : s ≤ tokens.length) :
    (mkChunkData chunk_size tokens fp (s : Int) chunk_id).token_count =
      min (s + chunk_size) tokens.length - s := by
  simp only [mkChunkData]
  rw [pySlice_eval tokens (s : Int) _ (by omega) (by omega) (by omega)]
  simp only [List.length_take, List.length_drop]
  omega

theorem mkChunkData_content (chunk_size : Nat) (tokens : List String)
    (fp : String) (s chunk_id : Nat) (hs : s ≤ tokens.length) :
    (mkChunkData chunk_size tokens fp (s : Int) chunk_id).content =
      decodeTokens ((tokens.drop s).take chunk_size) := by
  simp only [mkChunkData]
  rw [pySlice_eval tokens (s : Int) _ (by omega) (by omega) (by omega)]
  have h1 : ((s : Int)).toNat = s := by omega
  have h2 : (min ((s : Int) + chunk_size) (tokens.length : Int) - s).toNat =
      min (s + chunk_size) tokens.length - s := by omega
  rw [h1, h2]
  congr 1
  rw [List.take_eq_take]
  simp only [List.length_drop]
  omega

theorem mkChunkData_start_line (chunk_size : Nat) (tokens : List String)
    (fp : String) (s chunk_id : Nat) (hs : s ≤ tokens.length) :
    (mkChunkData chunk_size tokens fp (s : Int) chunk_id).start_line =
      countNL (decodeTokens (tokens.take s)) := by
  simp only [mkChunkData]
  by_cases h0 : 0 < (s : Int)
  · rw [if_pos h0, pySlice_eval tokens 0 (s : Int) (by omega) (by omega) (by omega)]
    have h1 : ((0 : Int)).toNat = 0 := rfl
    have h2 : ((s : Int) - 0).toNat = s := by omega
    rw [h1, h2, List.drop_zero]
  · rw [if_neg h0]
    have hz : s = 0 := by omega
    subst hz
    rfl

theorem mkChunkData_end_line (chunk_size : Nat) (tokens : List String)
    (fp : String) (s : Int) (chunk_id : Nat) :
    (mkChunkData chunk_size tokens fp s chunk_id).end_line =
      (mkChunkData chunk_size tokens fp s chunk_id).start_line +
        countNL ((mkChunkData chunk_size tokens fp s chunk_id).content) := rfl

theorem mkChunkData_id (chunk_size : Nat) (tokens : List String)
    (fp : String) (s : Int) (chunk_id : Nat) :
    (mkChunkData chunk_size tokens fp s chunk_id).id =
      fp ++ ":" ++ toString ((mkChunkData chunk_size tokens fp s chunk_id).start_line) ++
        "-" ++ toString ((mkChunkData chunk_size tokens fp s chunk_id).end_line) := rfl

theorem chunkLoop_spec (chunk_size chunk_overlap : Nat) (tokens : List String)
    (fp : String) (hlt : chunk_overlap < chunk_size) :
    ∀ fuel s chunk_id, s < tokens.length → tokens.length - s ≤ fuel →
      ∃ cs, chunkLoop chunk_size chunk_overlap tokens fp fuel (s : Int) chunk_id = some cs ∧
        0 < cs.length ∧
        (∀ j, ∀ hj : j < cs.length, cs.get ⟨j, hj⟩ =
          mkChunkData chunk_size tokens fp
            ((s + j * (chunk_size - chunk_overlap) : Nat) : Int) (chunk_id + j)) ∧
        (∀ j, j + 1 < cs.length →
          s + j * (chunk_size - chunk_overlap) + chunk_size < tokens.length) ∧
        tokens.length ≤ s + (cs.length - 1) * (chunk_size - chunk_overlap) + chunk_size ∧
        s + (cs.length - 1) * (chunk_size - chunk_overlap) < tokens.length := by
  intro fuel
  induction fuel with
  | zero => intro s chunk_id hs hf; omega
  | succ fuel ih =>
    intro s chunk_id hs hf
    have hslt : (s : Int) < (tokens.length : Int) := by exact_mod_cast hs
    by_cases hend : (tokens.length : Int) ≤ min ((s : Int) + chunk_size) (tokens.length : Int)
    · refine ⟨[mkChunkData chunk_size tokens fp (s : Int) chunk_id], ?_, by simp, ?_, ?_, ?_, ?_⟩
      · simp only [chunkLoop, if_pos hslt, if_pos hend]
      · intro j hj
        have hj0 : j = 0 := by simpa using hj
        subst hj0
        simp
      · intro j hj
        simp at hj
      · simp only [List.length_singleton]
        omega
      · simp only [List.length_singleton]
        omega
    · have hfull : s + chunk_size < tokens.length := by omega
      have harg : min ((s : Int) + chunk_size) (tokens.length : Int) - chunk_overlap =
          ((s + (chunk_size - chunk_overlap) : Nat) : Int) := by omega
      obtain ⟨cs', hrun, hpos, hget, hwin, hlastle, hlastlt⟩ :=
        ih (s + (chunk_size - chunk_overlap)) (chunk_id + 1) (by omega) (by omega)
      refine ⟨mkChunkData chunk_size tokens fp (s : Int) chunk_id :: cs', ?_, by simp, ?_, ?_, ?_, ?_⟩
      · simp only [chunkLoop, if_pos hslt, if_neg hend, harg, hrun]
      · intro j hj
        match j with
        | 0 => simp
        | j' + 1 =>
          have hj' : j' < cs'.length := by simpa using hj
          have e1 : s + (chunk_size - chunk_overlap) + j' * (chunk_size - chunk_overlap) =
              s + (j' + 1) * (chunk_size - chunk_overlap) := by ring
          have e2 : chunk_id + 1 + j' = chunk_id + (j' + 1) := by omega
          have := hget j' hj'
          rw [e1, e2] at this
          simpa using this
      · intro j hj
        match j with
        | 0 => simpa using hfull
        | j' + 1 =>
          have hj' : j' + 1 < cs'.length := by simpa using hj
          have := hwin j' hj'
          have e1 : s + (chunk_size - chunk_overlap) + j' * (chunk_size - chunk_overlap) =
              s + (j' + 1) * (chunk_size - chunk_overlap) := by ring
          omega
      · obtain ⟨m, hm⟩ : ∃ m, cs'.length = m + 1 := ⟨cs'.length - 1, by omega⟩
        rw [hm] at hlastle
        have e1 : (m + 1) * (chunk_size - chunk_overlap) =
            m * (chunk_size - chunk_overlap) + (chunk_size - chunk_overlap) := by ring
        simp only [List.length_cons, hm, Nat.add_sub_cancel] at *
        rw [e1]
        omega
      · obtain ⟨m, hm⟩ : ∃ m, cs'.length = m + 1 := ⟨cs'.length - 1, by omega⟩
        rw [hm] at hlastlt
        have e1 : (m + 1) * (chunk_size - chunk_overlap) =
            m * (chunk_size - chunk_overlap) + (chunk_size - chunk_overlap) := by ring
        simp only [List.length_cons, hm, Nat.add_sub_cancel] at *
        rw [e1]
        omega

theorem chunkLoop_diverges (chunk_size chunk_overlap : Nat) (tokens : List String)
    (fp : String) (hov : chunk_size ≤ chunk_overlap) (hn : chunk_size < tokens.length) :
    ∀ fuel (start : Int), start ≤ 0 → ∀ chunk_id,
      chunkLoop chunk_size chunk_overlap tokens fp fuel start chunk_id = none := by
  intro fuel
  induction fuel with
  | zero => intro start hstart chunk_id; rfl
  | succ fuel ih =>
    intro start hstart chunk_id
    have h1 : start < (tokens.length : Int) := by omega
    have h2 : ¬ ((tokens.length : Int) ≤ min (start + chunk_size) (tokens.length : Int)) := by
      omega
    simp only [chunkLoop, if_pos h1, if_neg h2]
    rw [ih (min (start + chunk_size) (tokens.length : Int) - chunk_overlap) (by omega)
      (chunk_id + 1)]

/-- Claim C4: with `0 < chunk_overlap < chunk_size` and a non-empty token
stream, `chunk_text` produces chunks whose token windows start at 0 and
advance by exactly `chunk_size - chunk_overlap`; each window holds at least
one and at most `chunk_size` tokens, the final window ends exactly at the end
of the token stream, and the windows cover the whole stream. -/
theorem claim_C4_chunk_windows (chunk_size chunk_overlap : Nat) (tokens : List String)
    (fp : String) (h0 : 0 < chunk_overlap) (hlt : chunk_overlap < chunk_size)
    (hne : tokens ≠ []) :
    ∃ cs, chunk_text chunk_size chunk_overlap tokens fp = some cs ∧ cs ≠ [] ∧
      (∀ j, ∀ hj : j < cs.length,
        (cs.get ⟨j, hj⟩).chunk_index = j ∧
        (cs.get ⟨j, hj⟩).content =
          decodeTokens ((tokens.drop (j * (chunk_size - chunk_overlap))).take chunk_size) ∧
        (cs.get ⟨j, hj⟩).token_count =
          min (j * (chunk_size - chunk_overlap) + chunk_size) tokens.length -
            j * (chunk_size - chunk_overlap) ∧
        1 ≤ (cs.get ⟨j, hj⟩).token_count ∧ (cs.get ⟨j, hj⟩).token_count ≤ chunk_size) ∧
      (∀ hne2 : cs ≠ [],
        (cs.length - 1) * (chunk_size - chunk_overlap) +
          (cs.getLast hne2).token_count = tokens.length) ∧
      ∀ i, i < tokens.length → ∃ j, ∃ hj : j < cs.length,
        j * (chunk_size - chunk_overlap) ≤ i ∧
        i < j * (chunk_size - chunk_overlap) + (cs.get ⟨j, hj⟩).token_count := by
  obtain ⟨cs, hrun, hpos, hget, hwin, hlastle, hlastlt⟩ :=
    chunkLoop_spec chunk_size chunk_overlap tokens fp hlt (tokens.length + 1) 0 0
      (List.length_pos.mpr hne) (by omega)
  simp only [Nat.zero_add, Nat.add_zero, zero_add, add_zero] at hget hwin hlastle hlastlt
  have hn : 0 < tokens.length := List.length_pos.mpr hne
  have hstep : 0 < chunk_size - chunk_overlap := by omega
  have hstart : ∀ j, j < cs.length → j * (chunk_size - chunk_overlap) < tokens.length := by
    intro j hj
    calc j * (chunk_size - chunk_overlap)
        ≤ (cs.length - 1) * (chunk_size - chunk_overlap) :=
          Nat.mul_le_mul_right _ (by omega)
      _ < tokens.length := hlastlt
  refine ⟨cs, ?_, ?_, ?_, ?_, ?_⟩
  · simpa [chunk_text] using hrun
  · intro h
    rw [h] at hpos
    simp at hpos
  · intro j hj
    have hj' := hget j hj
    have hsn : j * (chunk_size - chunk_overlap) ≤ tokens.length := le_of_lt (hstart j hj)
    refine ⟨?_, ?_, ?_, ?_, ?_⟩
    · rw [hj']
      rfl
    · rw [hj', mkChunkData_content _ _ _ _ _ hsn]
    · rw [hj', mkChunkData_token_count _ _ _ _ _ hsn]
    · rw [hj', mkChunkData_token_count _ _ _ _ _ hsn]
      have := hstart j hj
      omega
    · rw [hj', mkChunkData_token_count _ _ _ _ _ hsn]
      omega
  · intro hne2
    have hlast : cs.getLast hne2 = cs.get ⟨cs.length - 1, by omega⟩ :=
      List.getLast_eq_get cs hne2
    have hsn : (cs.length - 1) * (chunk_size - chunk_overlap) ≤ tokens.length :=
      le_of_lt hlastlt
    rw [hlast, hget (cs.length - 1) (by omega), mkChunkData_token_count _ _ _ _ _ hsn]
    omega
  · intro i hi
    by_cases hc : i / (chunk_size - chunk_overlap) ≤ cs.length - 1
    · refine ⟨i / (chunk_size - chunk_overlap), by omega, Nat.div_mul_le_self i _, ?_⟩
      rw [hget _ (by omega),
        mkChunkData_token_count _ _ _ _ _ (le_of_lt (hstart _ (by omega)))]
      have hdm : i / (chunk_size - chunk_overlap) * (chunk_size - chunk_overlap) +
          i % (chunk_size - chunk_overlap) = i := Nat.div_add_mod' i _
      have hml : i % (chunk_size - chunk_overlap) < chunk_size - chunk_overlap :=
        Nat.mod_lt i hstep
      omega
    · refine ⟨cs.length - 1, by omega, ?_, ?_⟩
      · calc (cs.length - 1) * (chunk_size - chunk_overlap)
            ≤ i / (chunk_size - chunk_overlap) * (chunk_size - chunk_overlap) :=
              Nat.mul_le_mul_right _ (by omega)
          _ ≤ i := Nat.div_mul_le_self i _
      · rw [hget _ (by omega), mkChunkData_token_count _ _ _ _ _ (le_of_lt hlastlt)]
        omega

/-- Witness for claim C4 at `chunk_size = 3`, `chunk_overlap = 1`, five tokens. -/
theorem claim_C4_witness :
    ∃ cs, chunk_text 3 1 ["a", "b", "c", "d", "e"] "f" = some cs ∧ cs ≠ [] ∧
      (∀ j, ∀ hj : j < cs.length,
        (cs.get ⟨j, hj⟩).chunk_index = j ∧
        (cs.get ⟨j, hj⟩).content =
          decodeTokens (((["a", "b", "c", "d", "e"] : List String).drop (j * (3 - 1))).take 3) ∧
        (cs.get ⟨j, hj⟩).token_count =
          min (j * (3 - 1) + 3) (["a", "b", "c", "d", "e"] : List String).length -
            j * (3 - 1) ∧
        1 ≤ (cs.get ⟨j, hj⟩).token_count ∧ (cs.get ⟨j, hj⟩).token_count ≤ 3) ∧
      (∀ hne2 : cs ≠ [],
        (cs.length - 1) * (3 - 1) + (cs.getLast hne2).token_count =
          (["a", "b", "c", "d", "e"] : List String).length) ∧
      ∀ i, i < (["a", "b", "c", "d", "e"] : List String).length →
        ∃ j, ∃ hj : j < cs.length,
          j * (3 - 1) ≤ i ∧ i < j * (3 - 1) + (cs.get ⟨j, hj⟩).token_count :=
  claim_C4_chunk_windows 3 1 ["a", "b", "c", "d", "e"] "f" (by decide) (by decide) (by decide)

/-- Claim C5: every chunk produced by `chunk_text` has
`id = "<path>:<start_line>-<end_line>"` where `start_line` counts the newlines
of the decoded token prefix strictly before the chunk and `end_line` adds the
newlines of the chunk's decoded text. -/
theorem claim_C5_chunk_id (chunk_size chunk_overlap : Nat) (tokens : List String)
    (fp : String) (h0 : 0 < chunk_overlap) (hlt : chunk_overlap < chunk_size)
    (cs : List Chunk) (hcs : chunk_text chunk_size chunk_overlap tokens fp = some cs) :
    ∀ j, ∀ hj : j < cs.length,
      (cs.get ⟨j, hj⟩).start_line =
        countNL (decodeTokens (tokens.take (j * (chunk_size - chunk_overlap)))) ∧
      (cs.get ⟨j, hj⟩).end_line =
        (cs.get ⟨j, hj⟩).start_line + countNL ((cs.get ⟨j, hj⟩).content) ∧
      (cs.get ⟨j, hj⟩).id =
        fp ++ ":" ++ toString ((cs.get ⟨j, hj⟩).start_line) ++ "-" ++
          toString ((cs.get ⟨j, hj⟩).end_line) := by
  by_cases hne : tokens = []
  · subst hne
    have h : chunk_text chunk_size chunk_overlap [] fp = some [] := by
      simp [chunk_text, chunkLoop]
    rw [h] at hcs
    obtain rfl : ([] : List Chunk) = cs := Option.some_injective _ hcs
    intro j hj
    simp at hj
  · obtain ⟨cs', hrun, hpos, hget, hwin, hlastle, hlastlt⟩ :=
      chunkLoop_spec chunk_size chunk_overlap tokens fp hlt (tokens.length + 1) 0 0
        (List.length_pos.mpr hne) (by omega)
    simp only [Nat.zero_add, Nat.add_zero, zero_add, add_zero] at hget hlastlt
    have h : chunk_text chunk_size chunk_overlap tokens fp = some cs' := by
      simpa [chunk_text] using hrun
    rw [h] at hcs
    obtain rfl : cs' = cs := Option.some_injective _ hcs
    have hstart : ∀ j, j < cs'.length → j * (chunk_size - chunk_overlap) < tokens.length := by
      intro j hj
      calc j * (chunk_size - chunk_overlap)
          ≤ (cs'.length - 1) * (chunk_size - chunk_overlap) :=
            Nat.mul_le_mul_right _ (by omega)
        _ < tokens.length := hlastlt
    intro j hj
    have hj' := hget j hj
    refine ⟨?_, ?_, ?_⟩
    · rw [hj', mkChunkData_start_line _ _ _ _ _ (le_of_lt (hstart j hj))]
    · rw [hj']
      exact mkChunkData_end_line _ _ _ _ _
    · rw [hj']
      exact mkChunkData_id _ _ _ _ _

/-- Witness for claim C5 at `chunk_size = 3`, `chunk_overlap = 1` and the
token stream `["a", "b\n", "c"]`, which yields the single chunk `csWitness`. -/
theorem claim_C5_witness :
    (csWitness.get ⟨0, Nat.one_pos⟩).start_line =
      countNL (decodeTokens ((["a", "b\n", "c"] : List String).take (0 * (3 - 1)))) ∧
    (csWitness.get ⟨0, Nat.one_pos⟩).end_line =
      (csWitness.get ⟨0, Nat.one_pos⟩).start_line +
        countNL ((csWitness.get ⟨0, Nat.one_pos⟩).content) ∧
    (csWitness.get ⟨0, Nat.one_pos⟩).id =
      "f" ++ ":" ++ toString ((csWitness.get ⟨0, Nat.one_pos⟩).start_line) ++ "-" ++
        toString ((csWitness.get ⟨0, Nat.one_pos⟩).end_line) :=
  claim_C5_chunk_id 3 1 ["a", "b\n", "c"] "f" (by decide) (by decide) csWitness (by decide)
    0 Nat.one_pos

/-- Claim C10: with `chunk_overlap < chunk_size` the chunking loop terminates
on every input (the fuelled loop returns `some` within `|tokens| + 1` steps);
and the precondition is necessary once the stream is longer than `chunk_size`:
with `chunk_size ≤ chunk_overlap` the loop returns `none` for every fuel, i.e.
it never exits. -/
theorem claim_C10_termination (chunk_size chunk_overlap : Nat) (tokens : List String)
    (fp : String) :
    (chunk_overlap < chunk_size →
      ∃ cs, chunk_text chunk_size chunk_overlap tokens fp = some cs) ∧
    (chunk_size ≤ chunk_overlap → chunk_size < tokens.length →
      ∀ fuel chunk_id, chunkLoop chunk_size chunk_overlap tokens fp fuel 0 chunk_id = none) := by
  constructor
  · intro hlt
    by_cases hne : tokens = []
    · subst hne
      exact ⟨[], by simp [chunk_text, chunkLoop]⟩
    · obtain ⟨cs, hrun, -⟩ :=
        chunkLoop_spec chunk_size chunk_overlap tokens fp hlt (tokens.length + 1) 0 0
          (List.length_pos.mpr hne) (by omega)
      exact ⟨cs, by simpa [chunk_text] using hrun⟩
  · intro hov hn fuel chunk_id
    exact chunkLoop_diverges chunk_size chunk_overlap tokens fp hov hn fuel 0 (by omega)
      chunk_id

/-- Witness for claim C10: termination at `chunk_size = 2 > chunk_overlap = 1`
and divergence at `chunk_size = chunk_overlap = 2` on a three-token stream. -/
theorem claim_C10_witness :
    (∃ cs, chunk_text 2 1 ["a", "b", "c"] "f" = some cs) ∧
    (∀ fuel chunk_id, chunkLoop 2 2 ["a", "b", "c"] "f" fuel 0 chunk_id = none) :=
  ⟨(claim_C10_termination 2 1 ["a", "b", "c"] "f").1 (by decide),
   fun fuel chunk_id =>
     (claim_C10_termination 2 2 ["a", "b", "c"] "f").2 (by decide) (by decide) fuel chunk_id⟩

/-- Claim C3: change detection returns `added` = current paths minus prior
paths, `deleted` = prior paths minus current paths, and `modified` = exactly
the paths present in both maps whose digests differ. -/
theorem claim_C3_detect_changes (prior current : List (String × String)) :
    (detect_changes prior current).added =
      (current.map Prod.fst).toFinset \ (prior.map Prod.fst).toFinset ∧
    (detect_changes prior current).deleted =
      (prior.map Prod.fst).toFinset \ (current.map Prod.fst).toFinset ∧
    ∀ p : String,
      p ∈ (detect_changes prior current).modified ↔
        p ∈ (prior.map Prod.fst).toFinset ∧ p ∈ (current.map Prod.fst).toFinset ∧
          List.lookup p prior ≠ List.lookup p current := by
  refine ⟨rfl, rfl, fun p => ?_⟩
  simp [detect_changes, Finset.mem_filter, Finset.mem_inter, and_assoc]

/-- Claim C1: at the concrete failing input (prior map sends `a.py` to digest
`h1`, current map sends it to `h2`, the file exists), `incremental_sync`
commits the Merkle state covering the new digest of `a.py` as its very first
write, strictly before `a.py` is processed — not after all per-file
processing as the specification requires. -/
theorem claim_C1_merkle_committed_before_processing :
    incremental_sync_trace [("a.py", "h1")] [("a.py", "h2")] (fun _ => true) =
      [SyncEvent.storeMerkle [("a.py", "h2")],
       SyncEvent.deleteFiles ∅,
       SyncEvent.processFiles {"a.py"},
       SyncEvent.cleanupOrphans] := by
  decide

theorem boost_fold_eq (cl : String) (l : List String) :
    ∀ acc : ℚ, l.foldl (fun acc keyword =>
        if 0 < pyCount cl keyword then
          acc + min ((1 : ℚ) / 10 * pyCount cl keyword) (3 / 10) else acc) acc =
      acc + (l.map (fun k => min ((1 : ℚ) / 10 * pyCount cl k) (3 / 10))).sum := by
  induction l with
  | nil => intro acc; simp
  | cons k rest ih =>
    intro acc
    simp only [List.foldl_cons, List.map_cons, List.sum_cons]
    by_cases hc : 0 < pyCount cl k
    · rw [if_pos hc, ih]
      ring
    · rw [if_neg hc, ih]
      have h0 : pyCount cl k = 0 := by omega
      rw [h0]
      norm_num [min_def]

/-- Claim C6: keyword boosting is the identity for an empty keyword list;
otherwise it returns `min(base + b·(1 − base), 1)` where `b` is the clamped
sum of the per-keyword contributions `min(0.1·c, 0.3)`; for `base ∈ [0, 1]`
the result never drops below `base` and never exceeds 1. -/
theorem claim_C6_keyword_boosting (base : ℚ) (content : String) (keywords : List String)
    (h0 : 0 ≤ base) (h1 : base ≤ 1) :
    (keywords = [] → apply_keyword_boosting base content keywords = base) ∧
    (keywords ≠ [] → apply_keyword_boosting base content keywords =
      min (base + keywordBoostTotal content keywords * (1 - base)) 1) ∧
    base ≤ apply_keyword_boosting base content keywords ∧
    apply_keyword_boosting base content keywords ≤ 1 := by
  have hsum : 0 ≤ (keywords.map
      (fun k => min ((1 : ℚ) / 10 * pyCount (lowerStr content) k) (3 / 10))).sum := by
    apply List.sum_nonneg
    intro x hx
    simp only [List.mem_map] at hx
    obtain ⟨k, -, rfl⟩ := hx
    apply le_min
    · positivity
    · norm_num
  have hb0 : 0 ≤ keywordBoostTotal content keywords := by
    unfold keywordBoostTotal
    exact le_min hsum (by norm_num)
  by_cases hk : keywords = []
  · subst hk
    refine ⟨fun _ => ?_, fun h => absurd rfl h, ?_, ?_⟩
    · simp [apply_keyword_boosting]
    · simp [apply_keyword_boosting]
    · simpa [apply_keyword_boosting] using h1
  · have heq : apply_keyword_boosting base content keywords =
        min (base + keywordBoostTotal content keywords * (1 - base)) 1 := by
      simp only [apply_keyword_boosting, if_neg hk]
      rw [boost_fold_eq]
      simp only [zero_add]
      rfl
    have hmul : 0 ≤ keywordBoostTotal content keywords * (1 - base) :=
      mul_nonneg hb0 (by linarith)
    refine ⟨fun h => absurd h hk, fun _ => heq, ?_, ?_⟩
    · rw [heq]
      exact le_min (by linarith) h1
    · rw [heq]
      exact min_le_right _ _

/-- Witness for claim C6 at `base = 0`, content `"foo foo"`, keyword `"foo"`. -/
theorem claim_C6_witness :
    ((["foo"] : List String) = [] → apply_keyword_boosting 0 "foo foo" ["foo"] = 0) ∧
    ((["foo"] : List String) ≠ [] → apply_keyword_boosting 0 "foo foo" ["foo"] =
      min ((0 : ℚ) + keywordBoostTotal "foo foo" ["foo"] * (1 - 0)) 1) ∧
    (0 : ℚ) ≤ apply_keyword_boosting 0 "foo foo" ["foo"] ∧
    apply_keyword_boosting 0 "foo foo" ["foo"] ≤ 1 :=
  claim_C6_keyword_boosting 0 "foo foo" ["foo"] (le_refl 0) zero_le_one

theorem filterMap_threshold (query_keywords : List String) (similarity_threshold : ℚ) :
    ∀ hits : List VHit,
      (hits.filterMap (fun h =>
        if apply_keyword_boosting (max 0 (1 - h.distance)) h.content query_keywords <
            similarity_threshold then none
        else some (⟨h.id, h.content, h.meta.file_path, h.meta.start_line, h.meta.end_line,
          apply_keyword_boosting (max 0 (1 - h.distance)) h.content query_keywords⟩ :
            SearchResult))) =
      (hits.map (fun h => (⟨h.id, h.content, h.meta.file_path, h.meta.start_line,
        h.meta.end_line, boostedSimilarity query_keywords h⟩ : SearchResult))).filter
        (fun r => decide (similarity_threshold ≤ r.similarity_score)) := by
  intro hits
  induction hits with
  | nil => rfl
  | cons h t ih =>
    simp only [List.filterMap_cons, List.map_cons, List.filter_cons]
    by_cases hc : apply_keyword_boosting (max 0 (1 - h.distance)) h.content query_keywords <
        similarity_threshold
    · have hnle : ¬ similarity_threshold ≤
          apply_keyword_boosting (max 0 (1 - h.distance)) h.content query_keywords :=
        not_le.mpr hc
      simp [boostedSimilarity, if_pos hc, hnle, ih]
    · have hle : similarity_threshold ≤
          apply_keyword_boosting (max 0 (1 - h.distance)) h.content query_keywords :=
        not_lt.mp hc
      simp [boostedSimilarity, if_neg hc, hle, ih]

/-- Claim C7: `search` passes `2·max_results` as the candidate count to the
vector store and otherwise is exactly the described pipeline — base
similarity `max(0, 1 − distance)`, keyword boosting, dropping hits below the
threshold, descending sort — and returns at most `max_results` results in
descending order of boosted similarity. -/
theorem claim_C7_search_pipeline (vector_db : Nat → List VHit)
    (query_keywords : List String) (similarity_threshold : ℚ) (max_results : Nat) :
    search vector_db query_keywords similarity_threshold max_results =
      searchDescribed (vector_db (max_results * 2)) query_keywords similarity_threshold
        max_results ∧
    List.Pairwise (fun a b : SearchResult => b.similarity_score ≤ a.similarity_score)
      (search vector_db query_keywords similarity_threshold max_results) ∧
    (search vector_db query_keywords similarity_threshold max_results).length ≤
      max_results := by
  have htrans : ∀ a b c : SearchResult,
      decide (b.similarity_score ≤ a.similarity_score) = true →
      decide (c.similarity_score ≤ b.similarity_score) = true →
      decide (c.similarity_score ≤ a.similarity_score) = true := by
    intro a b c hab hbc
    simp only [decide_eq_true_eq] at *
    exact le_trans hbc hab
  have htot : ∀ a b : SearchResult,
      (decide (b.similarity_score ≤ a.similarity_score) ||
       decide (a.similarity_score ≤ b.similarity_score)) = true := by
    intro a b
    simp only [Bool.or_eq_true, decide_eq_true_eq]
    exact le_total b.similarity_score a.similarity_score
  refine ⟨?_, ?_, ?_⟩
  · simp only [search, searchDescribed]
    rw [filterMap_threshold]
  · simp only [search, sortByScoreDesc]
    exact List.Pairwise.sublist (List.take_sublist _ _)
      ((List.sorted_mergeSort htrans htot _).imp (fun h => of_decide_eq_true h))
  · simp only [search, sortByScoreDesc]
    exact List.length_take_le _ _

theorem context_build_le (max_context_length : Nat) (results : List SearchResult) :
    ∀ current_length : Nat, current_length ≤ max_context_length →
      current_length +
        sumLens (context_build max_context_length results current_length) ≤
        max_context_length := by
  induction results with
  | nil =>
    intro cur h
    simpa [context_build, sumLens] using h
  | cons r rest ih =>
    intro cur h
    simp only [context_build]
    by_cases hc : cur + (formatBlock r).length > max_context_length
    · rw [if_pos hc]
      simpa [sumLens] using h
    · rw [if_neg hc]
      have h2 := ih (cur + (formatBlock r).length) (by omega)
      simp only [sumLens, List.map_cons, List.sum_cons] at h2 ⊢
      omega

theorem joinNL_length_le (parts : List String) :
    (joinNL parts).length ≤ sumLens parts + (parts.length - 1) := by
  induction parts with
  | nil => simp [joinNL, sumLens]
  | cons s rest ih =>
    cases rest with
    | nil => simp [joinNL, sumLens]
    | cons t ts =>
      simp only [joinNL, String.length_append, sumLens, List.map_cons, List.sum_cons,
        List.length_cons] at ih ⊢
      have h1 : ("\n" : String).length = 1 := rfl
      omega

/-- Claim C2 (amended): the running total the loop enforces is the sum of the
block lengths, which never exceeds `max_context_length`; the returned context
joins the blocks with single newlines, so its length is bounded by
`max_context_length` plus one separator per appended block beyond the first. -/
theorem claim_C2_context_budget (results : List SearchResult) (max_context_length : Nat) :
    sumLens (context_build max_context_length results 0) ≤ max_context_length ∧
    (get_context_for_completion results max_context_length).context_length ≤
      max_context_length +
        ((get_context_for_completion results max_context_length).chunks_used - 1) := by
  have h1 := context_build_le max_context_length results 0 (Nat.zero_le _)
  have h2 := joinNL_length_le (context_build max_context_length results 0)
  constructor
  · omega
  · simp only [get_context_for_completion]
    omega

/-- Counterexample to claim C2 as stated: two results whose formatted blocks
are 50 characters each, with `max_context_length = 100`; both blocks are
appended (their lengths sum to exactly 100), and the newline inserted by the
join makes the returned context 101 characters long. -/
theorem claim_C2_counterexample :
    ¬ (get_context_for_completion [cxResult, cxResult] 100).context_length ≤ 100 := by
  decide

/-- Claim C9 (amended): called with no argument, `get_context_for_completion`
uses its declared default budget of 8000 characters. -/
theorem claim_C9_default_budget (results : List SearchResult) :
    get_context_for_completion_default results =
      get_context_for_completion results 8000 ∧
    sumLens (context_build 8000 results 0) ≤ 8000 :=
  ⟨rfl, by simpa using context_build_le 8000 results 0 (Nat.zero_le _)⟩

/-- Counterexample to claim C9 as stated: a single result whose formatted
block is 8130 characters long is rejected by the defaulted call but accepted
under an explicit 16000-character budget, so the default is not 16000. -/
theorem claim_C9_counterexample :
    (get_context_for_completion_default [c9Result]).chunks_used = 0 ∧
    (get_context_for_completion [c9Result] 16000).chunks_used = 1 := by
  have hbig : bigContent.length = 8100 := by
    rw [show bigContent.length = (List.replicate 8100 'a').length from rfl,
      List.length_replicate]
  have hb : (formatBlock c9Result).length = 8130 := by
    simp only [formatBlock, c9Result, String.length_append, hbig]
    decide
  have h8000 : context_build 8000 [c9Result] 0 = [] := by
    simp only [context_build, hb]
    norm_num
  have h16000 : context_build 16000 [c9Result] 0 = [formatBlock c9Result] := by
    simp only [context_build, hb]
    norm_num
  constructor
  · simp only [get_context_for_completion_default, get_context_for_completion, h8000]
    rfl
  · simp only [get_context_for_completion, h16000]
    rfl

/-- Claim C8: a candidate that passes every other filter is included at size
exactly 1 MiB, excluded at 1 MiB + 1 byte, and excluded when `stat` fails. -/
theorem claim_C8_size_boundary (f : FileMeta)
    (hext : lowerStr f.suffix ∈ code_extensions)
    (hskip : f.name ∉ skip_files)
    (hhid : (∀ part ∈ f.parts, startsWithDot part = false) ∨ f.name ∈ allowed_hidden)
    (hdir : ∀ part ∈ f.parts, part ∉ ignore_dirs)
    (hgit : f.gitignored = false) :
    should_include_file (withSize f (some (1024 * 1024))) = true ∧
    should_include_file (withSize f (some (1024 * 1024 + 1))) = false ∧
    should_include_file (withSize f none) = false := by
  refine ⟨?_, ?_, ?_⟩
  · norm_num [should_include_file, withSize, hgit]
    exact ⟨hext, hskip, hhid, hdir⟩
  · norm_num [should_include_file, withSize]
  · norm_num [should_include_file, withSize]

/-- Witness for claim C8 at the candidate file `src/main.py`. -/
theorem claim_C8_witness :
    should_include_file (withSize fileW (some (1024 * 1024))) = true ∧
    should_include_file (withSize fileW (some (1024 * 1024 + 1))) = false ∧
    should_include_file (withSize fileW none) = false :=
  claim_C8_size_boundary fileW (by decide) (by decide) (by decide) (by decide) rfl

end Minipilot
